import Mathlib

/-!
Verification of the voice pipeline of `internal/services/voice/voice.go`
(package `voice` of the discord_tars repository).

The Go functions are shallowly embedded as Lean functions:
* bytes are `Nat` values below 256, byte slices are `List Nat`;
* `int16` samples are `Int` values (two's-complement semantics made
  explicit where Go conversions overflow);
* the accumulation buffers are `List Int`;
* channels are modelled as queues (`List`) of pending values, and the
  `select` loops are driven by an explicit schedule of which arm fires.
-/

namespace Voice

/-- Constant `channels = 2` from the constant block of voice.go (stereo audio). -/
def channels : Nat := 2

/-- Constant `frameRate = 24000` from the constant block of voice.go. -/
def frameRate : Nat := 24000

/-- Constant `frameSize = 480` from the constant block of voice.go. -/
def frameSize : Nat := 480

/-- Constant `maxBytes = frameSize * 2 * channels` from the constant block of voice.go. -/
def maxBytes : Nat := frameSize * 2 * channels

/-- Little-endian bytes of `int32(v)` as written by `binary.Write(w, binary.LittleEndian, int32 v)`. -/
def le32 (v : Nat) : List Nat :=
  [v % 256, v / 256 % 256, v / 65536 % 256, v / 16777216 % 256]

/-- Little-endian bytes of `int16(v)` as written by `binary.Write(w, binary.LittleEndian, int16 v)`. -/
def le16 (v : Nat) : List Nat :=
  [v % 256, v / 256 % 256]

/-- Embedding of `writeWAVHeader(w, numSamples, sampleRate, channels, bitsPerSample)`:
the exact byte sequence the Go function appends to the buffer.
`dataSize := numSamples * channels * (bitsPerSample / 8)`, `fileSize := 36 + dataSize`;
then RIFF tag, fileSize, WAVE tag, fmt chunk (tag, 16, PCM=1, channels, sampleRate,
byte rate, block align, bits), data tag, dataSize. -/
def writeWAVHeader (numSamples sampleRate chans bitsPerSample : Nat) : List Nat :=
  [82, 73, 70, 70] ++ le32 (36 + numSamples * chans * (bitsPerSample / 8)) ++
  [87, 65, 86, 69] ++
  [102, 109, 116, 32] ++ le32 16 ++
  le16 1 ++ le16 chans ++ le32 sampleRate ++
  le32 (sampleRate * chans * bitsPerSample / 8) ++
  le16 (chans * bitsPerSample / 8) ++ le16 bitsPerSample ++
  [100, 97, 116, 97] ++ le32 (numSamples * chans * (bitsPerSample / 8))

/-- Read a 32-bit little-endian value from the head of a byte list. -/
def readLE32 (bs : List Nat) : Nat :=
  match bs with
  | b0 :: b1 :: b2 :: b3 :: _ => b0 + 256 * b1 + 65536 * b2 + 16777216 * b3
  | _ => 0

/-- The data-chunk size field; it occupies bytes 40..43 of the 44-byte WAV header. -/
def wavDeclaredDataSize (header : List Nat) : Nat :=
  readLE32 (header.drop 40)

/-- Little-endian bytes of one `int16` sample, as produced by
`binary.Write(wavBuffer, binary.LittleEndian, sample)` in `ListenToVoice`. -/
def int16LEBytes (s : Int) : List Nat :=
  [(s % 65536).toNat % 256, (s % 65536).toNat / 256]

/-- The PCM data bytes written after the WAV header in `ListenToVoice`:
each buffered `int16` sample contributes its two little-endian bytes, in order. -/
def pcmBytes (buf : List Int) : List Nat :=
  buf.flatMap int16LEBytes

theorem pcmBytes_length : ∀ buf : List Int, (pcmBytes buf).length = 2 * buf.length
  | [] => rfl
  | s :: t => by
      show (int16LEBytes s ++ pcmBytes t).length = 2 * (s :: t).length
      rw [List.length_append, pcmBytes_length t]
      simp [int16LEBytes]
      omega

/-- Claim C1: for a captured buffer of n int16 samples, the WAV container built
before transcription is claimed to declare a data-chunk size equal to the 2*n
sample bytes actually written after the 44-byte header.  The code instead calls
`writeWAVHeader(wavBuffer, len(pcmBuffer), frameRate, channels, 16)` with
`numSamples` already the *total* interleaved sample count, so the declared size
is `n * channels * 2 = 4*n`: for the 2880-sample buffer of the claim the header
declares 11520 bytes while exactly 5760 bytes of sample data follow. -/
theorem C1_header_declares_double (buf : List Int) :
    wavDeclaredDataSize (writeWAVHeader 2880 frameRate channels 16) = 11520 ∧
    (pcmBytes (List.replicate 2880 (0 : Int))).length = 5760 ∧
    (writeWAVHeader 2880 frameRate channels 16).length = 44 ∧
    wavDeclaredDataSize (writeWAVHeader 2880 frameRate channels 16) ≠ 2880 * 2 ∧
    (pcmBytes buf).length = 2 * buf.length := by
  refine ⟨by decide, ?_, by decide, by decide, pcmBytes_length buf⟩
  rw [pcmBytes_length, List.length_replicate]

/-- Go's `int16` reading of a 16-bit pattern: values 0..32767 are themselves,
values 32768..65535 are shifted down by 65536 (two's complement). -/
def toInt16 (v : Nat) : Int :=
  if v % 65536 < 32768 then ((v % 65536 : Nat) : Int)
  else ((v % 65536 : Nat) : Int) - 65536

/-- One sample from two bytes as computed in `SpeakText`:
`sample := int16(byteBuffer[i]) | int16(byteBuffer[i+1])<<8`.
For byte values `lo`, `hi` this is the signed reading of the 16-bit
pattern `lo | hi<<8` (Go's `int16` shift wraps on overflow). -/
def goSample (lo hi : Nat) : Int :=
  toInt16 (Nat.lor lo (hi * 256))

/-- The inner conversion loop of `SpeakText` over one chunk returned by
`decoder.Read`: `for i := 0; i < n-1; i += 2` pairs consecutive bytes and a
trailing odd byte of the chunk forms no sample. -/
def pairSamples : List Nat → List Int
  | lo :: hi :: rest => goSample lo hi :: pairSamples rest
  | _ => []

/-- The full `SpeakText` decode loop: the MP3 decoder is pull-based and the
loop converts each read chunk independently, appending to `pcm`
(a read returning `n = 0` contributes nothing, like the `continue`). -/
def pcmOfChunks (chunks : List (List Nat)) : List Int :=
  (chunks.map pairSamples).flatten

theorem pairSamples_length : ∀ l : List Nat, (pairSamples l).length = l.length / 2
  | [] => rfl
  | [_] => by simp [pairSamples]
  | _ :: _ :: rest => by
      show (pairSamples rest).length + 1 = (rest.length + 1 + 1) / 2
      rw [pairSamples_length rest]
      omega

theorem pairSamples_append : ∀ c rest : List Nat, c.length % 2 = 0 →
    pairSamples (c ++ rest) = pairSamples c ++ pairSamples rest
  | [], _, _ => rfl
  | [_], _, h => by simp at h
  | a :: b :: t, rest, h => by
      show goSample a b :: pairSamples (t ++ rest) = goSample a b :: (pairSamples t ++ pairSamples rest)
      rw [pairSamples_append t rest (by simp only [List.length_cons] at h; omega)]

theorem pcmOfChunks_all_even : ∀ chunks : List (List Nat),
    (chunks.dropLast.all fun c => c.length % 2 == 0) = true →
    pcmOfChunks chunks = pairSamples chunks.flatten
  | [], _ => rfl
  | [c], _ => by simp [pcmOfChunks]
  | c :: c2 :: cs, h => by
      have hdrop : (c :: c2 :: cs).dropLast = c :: (c2 :: cs).dropLast := rfl
      rw [hdrop, List.all_cons, Bool.and_eq_true] at h
      have hc : c.length % 2 = 0 := by simpa using h.1
      have ih := pcmOfChunks_all_even (c2 :: cs) h.2
      show pairSamples c ++ pcmOfChunks (c2 :: cs) = pairSamples (c ++ (c2 :: cs).flatten)
      rw [ih, pairSamples_append c _ hc]

/-- Claim C6 counterexample: the decode loop of `SpeakText` converts each
`decoder.Read` chunk independently, so a 6-byte stream delivered as two 3-byte
reads yields 2 samples, not `floor(6/2) = 3`: byte `2` is dropped mid-stream
(it is not a trailing byte of the stream) and bytes `3`,`4` pair with each
other instead of `2` pairing with `3`. -/
theorem C6_chunked_stream_counterexample :
    (([0, 1, 2] ++ [3, 4, 5] : List Nat)).length = 6 ∧
    (pcmOfChunks [[0, 1, 2], [3, 4, 5]]).length = 2 ∧
    (2 : Nat) ≠ 6 / 2 ∧
    pcmOfChunks [[0, 1, 2], [3, 4, 5]] = [256, 1027] := by
  refine ⟨rfl, rfl, by decide, ?_⟩
  show [goSample 0 1, goSample 3 4] = [256, 1027]
  decide

/-- Claim C6 (amended): within every chunk returned by a `decoder.Read`, each
pair of consecutive little-endian bytes becomes one int16 sample
(`lo | hi<<8`), order preserved, and a trailing odd byte of the chunk is
discarded, the chunk contributing `floor(len/2)` samples; whenever every chunk
except possibly the last has even length (as is the case for 16-bit PCM reads),
the conversion of the whole n-byte stream equals the pairwise conversion of the
concatenated stream and yields exactly `floor(n/2)` samples. -/
theorem C6_pairwise_conversion (chunks : List (List Nat))
    (heven : (chunks.dropLast.all fun c => c.length % 2 == 0) = true) :
    pcmOfChunks chunks = pairSamples chunks.flatten ∧
    (pcmOfChunks chunks).length = chunks.flatten.length / 2 ∧
    (∀ lo hi rest, pairSamples (lo :: hi :: rest) = goSample lo hi :: pairSamples rest) ∧
    (∀ c : List Nat, (pairSamples c).length = c.length / 2) := by
  have h := pcmOfChunks_all_even chunks heven
  exact ⟨h, by rw [h, pairSamples_length], fun _ _ _ => rfl, pairSamples_length⟩

/-- Witness for C6's amended theorem at the concrete chunk list `[[1,2],[3]]`
(even first chunk, odd final chunk: 3 bytes in total, one sample out). -/
theorem C6_pairwise_conversion_witness :
    ((([[1, 2], [3]] : List (List Nat)).dropLast.all fun c => c.length % 2 == 0) = true) ∧
    pcmOfChunks [[1, 2], [3]] = pairSamples ([[1, 2], [3]] : List (List Nat)).flatten ∧
    (pcmOfChunks [[1, 2], [3]]).length = ([[1, 2], [3]] : List (List Nat)).flatten.length / 2 := by
  have h := C6_pairwise_conversion [[1, 2], [3]] (by decide)
  exact ⟨by decide, h.1, h.2.1⟩

/-- The streaming loop of `SpeakText` viewed as a chunker:
`for i := 0; i < len(pcm); i += frameSize*channels` takes
`sample := pcm[i:min(i+frameSize*channels, len(pcm))]` and, when shorter than
`frameSize*channels`, appends that many zero samples. -/
def chunkLoop (pcm : List Int) : List (List Int) :=
  if h : pcm = [] then []
  else
    (pcm.take (frameSize * channels) ++
      List.replicate (frameSize * channels - (pcm.take (frameSize * channels)).length) 0) ::
    chunkLoop (pcm.drop (frameSize * channels))
termination_by pcm.length
decreasing_by
  simp only [List.length_drop]
  have hp : 0 < pcm.length := List.length_pos.mpr h
  have : 0 < frameSize * channels := by decide
  omega

theorem chunkLoop_nil : chunkLoop [] = [] := by
  unfold chunkLoop
  rfl

theorem chunkLoop_cons (pcm : List Int) (h : pcm ≠ []) :
    chunkLoop pcm =
      (pcm.take (frameSize * channels) ++
        List.replicate (frameSize * channels - (pcm.take (frameSize * channels)).length) 0) ::
      chunkLoop (pcm.drop (frameSize * channels)) := by
  conv_lhs => unfold chunkLoop
  simp [h]

theorem chunkLoop_length_aux : ∀ (n : Nat) (pcm : List Int), pcm.length ≤ n →
    (chunkLoop pcm).length = (pcm.length + (frameSize * channels - 1)) / (frameSize * channels)
  | _, [], _ => by rw [chunkLoop_nil]; decide
  | 0, p :: t, hn => by simp only [List.length_cons] at hn; omega
  | n + 1, p :: t, hn => by
      have h : (p :: t : List Int) ≠ [] := by simp
      have hrec := chunkLoop_length_aux n ((p :: t).drop (frameSize * channels))
        (by simp only [List.length_drop, List.length_cons, frameSize, channels] at *; omega)
      rw [chunkLoop_cons _ h, List.length_cons, hrec]
      simp only [List.length_drop, List.length_cons, frameSize, channels]
      omega

theorem chunkLoop_length (pcm : List Int) :
    (chunkLoop pcm).length = (pcm.length + (frameSize * channels - 1)) / (frameSize * channels) :=
  chunkLoop_length_aux pcm.length pcm (le_refl _)

theorem chunkLoop_sizes_aux : ∀ (n : Nat) (pcm : List Int), pcm.length ≤ n →
    ((chunkLoop pcm).all fun c => c.length == frameSize * channels) = true
  | _, [], _ => by rw [chunkLoop_nil]; rfl
  | 0, p :: t, hn => by simp only [List.length_cons] at hn; omega
  | n + 1, p :: t, hn => by
      have h : (p :: t : List Int) ≠ [] := by simp
      have hrec := chunkLoop_sizes_aux n ((p :: t).drop (frameSize * channels))
        (by simp only [List.length_drop, List.length_cons, frameSize, channels] at *; omega)
      rw [chunkLoop_cons _ h, List.all_cons, hrec, Bool.and_true, beq_iff_eq,
        List.length_append, List.length_take, List.length_replicate]
      omega

theorem chunkLoop_sizes (pcm : List Int) :
    ((chunkLoop pcm).all fun c => c.length == frameSize * channels) = true :=
  chunkLoop_sizes_aux pcm.length pcm (le_refl _)

theorem chunkLoop_flatten_aux : ∀ (n : Nat) (pcm : List Int), pcm.length ≤ n →
    (chunkLoop pcm).flatten =
      pcm ++ List.replicate ((chunkLoop pcm).length * (frameSize * channels) - pcm.length) 0
  | _, [], _ => by rw [chunkLoop_nil]; rfl
  | 0, p :: t, hn => by simp only [List.length_cons] at hn; omega
  | n + 1, p :: t, hn => by
      have h : (p :: t : List Int) ≠ [] := by simp
      have hK : 0 < frameSize * channels := by decide
      have hrec := chunkLoop_flatten_aux n ((p :: t).drop (frameSize * channels))
        (by simp only [List.length_drop, List.length_cons, frameSize, channels] at *; omega)
      rw [chunkLoop_cons _ h]
      simp only [List.flatten_cons, List.length_cons]
      by_cases hle : (p :: t : List Int).length ≤ frameSize * channels
      · rw [List.drop_eq_nil_of_le hle, chunkLoop_nil, List.take_of_length_le hle]
        simp only [List.flatten_nil, List.append_nil, List.length_nil]
        have hcount : frameSize * channels - (p :: t : List Int).length =
            (0 + 1) * (frameSize * channels) - (t.length + 1) := by
          simp only [List.length_cons, frameSize, channels] at *
        rw [hcount]
      · push_neg at hle
        rw [hrec, List.length_take, Nat.min_eq_left (le_of_lt hle), Nat.sub_self,
          List.replicate_zero, List.append_nil]
        have hRR : (chunkLoop ((p :: t).drop (frameSize * channels))).length *
              (frameSize * channels) - ((p :: t).drop (frameSize * channels)).length =
            ((chunkLoop ((p :: t).drop (frameSize * channels))).length + 1) *
              (frameSize * channels) - (t.length + 1) := by
          simp only [List.length_drop, List.length_cons, frameSize, channels] at hle ⊢
          omega
        rw [hRR, ← List.append_assoc, List.take_append_drop]

theorem chunkLoop_flatten (pcm : List Int) :
    (chunkLoop pcm).flatten =
      pcm ++ List.replicate ((chunkLoop pcm).length * (frameSize * channels) - pcm.length) 0 :=
  chunkLoop_flatten_aux pcm.length pcm (le_refl _)

/-- Claim C3: for every decoded PCM sequence of length L > 0 the streaming loop
of `SpeakText` produces `ceil(L / (frameSize*channels))` chunks, each handed to
the encoder with exactly `frameSize*channels = 960` samples, and their
concatenation is the original sequence followed only by appended zero samples
(so the first L samples across the chunks in send order equal the input and no
real sample is dropped). -/
theorem C3_chunking (pcm : List Int) (h : 0 < pcm.length) :
    (chunkLoop pcm).length = (pcm.length + (frameSize * channels - 1)) / (frameSize * channels) ∧
    ((chunkLoop pcm).all fun c => c.length == frameSize * channels) = true ∧
    (chunkLoop pcm).flatten =
      pcm ++ List.replicate ((chunkLoop pcm).length * (frameSize * channels) - pcm.length) 0 ∧
    (chunkLoop pcm).flatten.take pcm.length = pcm := by
  refine ⟨chunkLoop_length pcm, chunkLoop_sizes pcm, chunkLoop_flatten pcm, ?_⟩
  rw [chunkLoop_flatten pcm, List.take_append_of_le_length (le_refl _), List.take_length]

/-- Witness for C3 at the one-sample input `[5]`: one chunk of 960 samples,
`[5]` followed by 959 zeros. -/
theorem C3_chunking_witness :
    0 < ([(5 : Int)] : List Int).length ∧
    ((chunkLoop [(5 : Int)]).length =
      (([(5 : Int)] : List Int).length + (frameSize * channels - 1)) / (frameSize * channels) ∧
    ((chunkLoop [(5 : Int)]).all fun c => c.length == frameSize * channels) = true ∧
    (chunkLoop [(5 : Int)]).flatten =
      [(5 : Int)] ++ List.replicate
        ((chunkLoop [(5 : Int)]).length * (frameSize * channels) - ([(5 : Int)] : List Int).length) 0 ∧
    (chunkLoop [(5 : Int)]).flatten.take ([(5 : Int)] : List Int).length = [(5 : Int)]) :=
  ⟨by decide, C3_chunking [(5 : Int)] (by decide)⟩

/-- Outcome of the streaming part of `SpeakText`: normal return `nil` or the
propagated `ctx.Err()` from the `case <-ctx.Done()` arm. -/
inductive SpeakResult
  | ok
  | ctxErr
deriving DecidableEq

/-- Observable actions of the streaming part of `SpeakText`:
`vc.Speaking(true)`, a frame accepted by `vc.OpusSend <- opusData`, and the
deferred `vc.Speaking(false)`. -/
inductive Act
  | speakingTrue
  | sendFrame (f : List Int)
  | speakingFalse
deriving DecidableEq

/-- The frame-send loop of `SpeakText`: for each chunk the `select` either hands
the frame to `vc.OpusSend` (schedule entry `true`) or sees `ctx.Done()` first
(schedule entry `false`) and returns `ctx.Err()`.  An exhausted schedule means
the transport keeps accepting. -/
def sendLoop : List (List Int) → List Bool → List Act × SpeakResult
  | [], _ => ([], SpeakResult.ok)
  | _ :: _, false :: _ => ([], SpeakResult.ctxErr)
  | c :: rest, true :: sched =>
      let p := sendLoop rest sched
      (Act.sendFrame c :: p.1, p.2)
  | c :: rest, [] =>
      let p := sendLoop rest []
      (Act.sendFrame c :: p.1, p.2)

/-- The streaming phase of `SpeakText` from `vc.Speaking(true)` on: the chunked
PCM is sent frame by frame; `defer vc.Speaking(false)` runs on every return
path, so the action trace always ends with `speakingFalse`. -/
def speakTextStream (pcm : List Int) (sched : List Bool) : List Act × SpeakResult :=
  ((Act.speakingTrue :: (sendLoop (chunkLoop pcm) sched).1) ++ [Act.speakingFalse],
   (sendLoop (chunkLoop pcm) sched).2)

/-- Number of frames handed to the outbound `vc.OpusSend` channel in a trace. -/
def framesSent (acts : List Act) : Nat :=
  acts.countP fun a => match a with
    | Act.sendFrame _ => true
    | _ => false

/-- The speaking flag after a trace has run (initially `false`;
`vc.Speaking(b)` sets it to `b`). -/
def speakingAfter (acts : List Act) : Bool :=
  acts.foldl (fun s a => match a with
    | Act.speakingTrue => true
    | Act.speakingFalse => false
    | Act.sendFrame _ => s) false

theorem speakingAfter_speakTextStream (pcm : List Int) (sched : List Bool) :
    speakingAfter (speakTextStream pcm sched).1 = false := by
  unfold speakTextStream speakingAfter
  rw [List.foldl_append]
  rfl

theorem sendLoop_cancel : ∀ (k : Nat) (chunks : List (List Int)) (rest : List Bool),
    k < chunks.length →
    sendLoop chunks (List.replicate k true ++ false :: rest) =
      ((chunks.take k).map Act.sendFrame, SpeakResult.ctxErr)
  | 0, [], _, hk => by simp at hk
  | 0, c :: cs, rest, _ => rfl
  | k + 1, [], _, hk => by simp at hk
  | k + 1, c :: cs, rest, hk => by
      show (Act.sendFrame c :: (sendLoop cs (List.replicate k true ++ false :: rest)).1,
            (sendLoop cs (List.replicate k true ++ false :: rest)).2) = _
      rw [sendLoop_cancel k cs rest (by simp only [List.length_cons] at hk; omega)]
      rfl

theorem framesSent_map_take (chunks : List (List Int)) (k : Nat) :
    framesSent ((Act.speakingTrue :: (chunks.take k).map Act.sendFrame) ++ [Act.speakingFalse]) =
      (chunks.take k).length := by
  unfold framesSent
  rw [List.countP_append, List.countP_cons, List.countP_map]
  simp [Function.comp_def, List.countP_eq_length]

/-- Claim C5: if cancellation fires during the `SpeakText` streaming loop after
`k` of the frames have been accepted by `vc.OpusSend`, the call returns
`ctx.Err()` at once, at most `k` frames were handed to the outbound channel,
and the speaking flag is `false` afterwards; moreover for every schedule
(success, error or cancellation) the deferred `vc.Speaking(false)` leaves the
flag `false` once the streaming phase set it to `true`. -/
theorem C5_cancellation (pcm : List Int) (k : Nat) (rest : List Bool)
    (hk : k < (chunkLoop pcm).length) :
    (speakTextStream pcm (List.replicate k true ++ false :: rest)).2 = SpeakResult.ctxErr ∧
    framesSent (speakTextStream pcm (List.replicate k true ++ false :: rest)).1 ≤ k ∧
    speakingAfter (speakTextStream pcm (List.replicate k true ++ false :: rest)).1 = false ∧
    (∀ sched : List Bool, speakingAfter (speakTextStream pcm sched).1 = false) := by
  refine ⟨?_, ?_, speakingAfter_speakTextStream pcm _, fun sched => speakingAfter_speakTextStream pcm sched⟩
  · show (sendLoop (chunkLoop pcm) (List.replicate k true ++ false :: rest)).2 = SpeakResult.ctxErr
    rw [sendLoop_cancel k (chunkLoop pcm) rest hk]
  · show framesSent ((Act.speakingTrue :: (sendLoop (chunkLoop pcm) (List.replicate k true ++ false :: rest)).1) ++ [Act.speakingFalse]) ≤ k
    rw [sendLoop_cancel k (chunkLoop pcm) rest hk, framesSent_map_take]
    simp [List.length_take]

/-- Witness for C5: a 960-sample utterance (one frame) cancelled before the
first frame is accepted: result `ctx.Err()`, zero frames sent, speaking `false`. -/
theorem C5_cancellation_witness :
    0 < (chunkLoop (List.replicate 960 (0 : Int))).length ∧
    ((speakTextStream (List.replicate 960 (0 : Int)) (List.replicate 0 true ++ false :: [])).2 =
        SpeakResult.ctxErr ∧
      framesSent (speakTextStream (List.replicate 960 (0 : Int))
        (List.replicate 0 true ++ false :: [])).1 ≤ 0 ∧
      speakingAfter (speakTextStream (List.replicate 960 (0 : Int))
        (List.replicate 0 true ++ false :: [])).1 = false ∧
      speakingAfter (speakTextStream (List.replicate 960 (0 : Int)) [true]).1 = false) := by
  have hk : 0 < (chunkLoop (List.replicate 960 (0 : Int))).length := by
    rw [chunkLoop_length, List.length_replicate]
    decide
  have h := C5_cancellation (List.replicate 960 (0 : Int)) 0 [] hk
  exact ⟨hk, h.1, h.2.1, h.2.2.1, h.2.2.2 [true]⟩

/-- Claim C10: if the synthesized audio decodes to an empty PCM sequence, the
streaming phase of `SpeakText` sends zero frames and returns success (`nil`),
and the speaking flag is still toggled: set to `true`, then reset to `false`
by the deferred call around the empty loop. -/
theorem C10_empty_pcm (sched : List Bool) :
    speakTextStream [] sched = ([Act.speakingTrue, Act.speakingFalse], SpeakResult.ok) ∧
    framesSent (speakTextStream [] sched).1 = 0 ∧
    (speakTextStream [] sched).2 = SpeakResult.ok ∧
    speakingAfter (speakTextStream [] sched).1 = false ∧
    (speakTextStream [] sched).1.head? = some Act.speakingTrue := by
  have hempty : speakTextStream [] sched = ([Act.speakingTrue, Act.speakingFalse], SpeakResult.ok) := by
    unfold speakTextStream
    rw [chunkLoop_nil]
    rfl
  refine ⟨hempty, ?_, ?_, ?_, ?_⟩ <;> rw [hempty] <;> rfl

/-- Which arm of the `select` in the `ListenToVoice` collection loop fires:
a value becomes available on the channel the loop reads frames from,
the 5-second `timeout` fires, or `ctx.Done()` fires. -/
inductive Arm
  | frameArrives
  | timeout
  | ctxDone
deriving DecidableEq

/-- Result of `ListenToVoice`:
`transcribed buf` = the accumulated buffer is handed to `CreateTranscription`
(the only path that calls the transcription API);
`noAudio` = the `"no audio data collected"` error for an empty buffer;
`cancelled` = the propagated `ctx.Err()`;
`stillListening buf` = the schedule ended with the loop still blocked in its
`select` (no terminating arm fired yet). -/
inductive ListenResult
  | transcribed (buf : List Int)
  | noAudio
  | cancelled
  | stillListening (buf : List Int)
deriving DecidableEq

/-- The collection loop of `ListenToVoice`.  `q` is the queue of values pending
on the channel the loop receives from; a `nil` slice (`none`) is skipped by
`if data == nil { continue }`; a frame whose Opus decode fails (`dec d = none`)
is logged and skipped by `continue`; decoded samples are appended to the
accumulation buffer.  On `timeout` control reaches the `transcription:` label:
an empty buffer returns the no-audio error, otherwise the buffer goes to the
transcription API.  On `ctx.Done()` the call returns `ctx.Err()`. -/
def listenLoop (dec : List Nat → Option (List Int)) :
    List Arm → List (Option (List Nat)) → List Int → ListenResult
  | [], _, buf => ListenResult.stillListening buf
  | Arm.frameArrives :: _, [], buf => ListenResult.stillListening buf
  | Arm.frameArrives :: arms, none :: q, buf => listenLoop dec arms q buf
  | Arm.frameArrives :: arms, some d :: q, buf =>
      match dec d with
      | none => listenLoop dec arms q buf
      | some s => listenLoop dec arms q (buf ++ s)
  | Arm.timeout :: _, _, buf =>
      if buf = [] then ListenResult.noAudio else ListenResult.transcribed buf
  | Arm.ctxDone :: _, _, _ => ListenResult.cancelled

/-- The two frame channels of a `discordgo.VoiceConnection`, as queues of
pending values: `OpusSend` is the outbound send channel (the bot's own
transmissions are written to it), `OpusRecv` carries the frames arriving from
the voice connection. -/
structure VoiceConn where
  opusSend : List (Option (List Nat))
  opusRecv : List (Option (List Nat))

/-- Embedding of `ListenToVoice` as written: the loop's receive case is
`case data := <-vc.OpusSend`, so the queue the collection loop consumes is the
connection's outbound `OpusSend` channel. -/
def ListenToVoice (dec : List Nat → Option (List Int)) (vc : VoiceConn)
    (arms : List Arm) : ListenResult :=
  listenLoop dec arms vc.opusSend []

/-- The samples appended to the accumulation buffer by a sequence of arriving
channel values: `nil` values and frames that fail to decode contribute nothing,
successfully decoded frames contribute their samples in arrival order. -/
def decodedConcat (dec : List Nat → Option (List Int))
    (frames : List (Option (List Nat))) : List Int :=
  frames.flatMap fun f => match f with
    | none => []
    | some d => (dec d).getD []

/-- A decoder for concrete runs: every frame decodes to the single sample 7. -/
def decSeven : List Nat → Option (List Int) := fun _ => some [7]

/-- Claim C2: the claim says the capture loop pulls the frames it decodes from
the transport's inbound receive operation.  The code reads `<-vc.OpusSend`:
the capture outcome is entirely independent of the contents of `OpusRecv`, a
frame waiting on the inbound `OpusRecv` channel is never captured (the window
elapses with an empty buffer), while a value queued on the outbound `OpusSend`
channel is captured. -/
theorem C2_reads_outbound_channel :
    (∀ (dec : List Nat → Option (List Int)) (arms : List Arm)
        (sendQ recvQ recvQ' : List (Option (List Nat))),
      ListenToVoice dec ⟨sendQ, recvQ⟩ arms = ListenToVoice dec ⟨sendQ, recvQ'⟩ arms) ∧
    ListenToVoice decSeven ⟨[], [some [1, 2]]⟩ [Arm.timeout] = ListenResult.noAudio ∧
    ListenToVoice decSeven ⟨[some [1, 2]], []⟩ [Arm.frameArrives, Arm.timeout] =
      ListenResult.transcribed [7] := by
  exact ⟨fun _ _ _ _ _ => rfl, rfl, rfl⟩

theorem listenLoop_run (dec : List Nat → Option (List Int)) :
    ∀ (k : Nat) (q : List (Option (List Nat))) (rest : List Arm) (buf : List Int),
    k ≤ q.length →
    listenLoop dec (List.replicate k Arm.frameArrives ++ Arm.timeout :: rest) q buf =
      (if buf ++ decodedConcat dec (q.take k) = [] then ListenResult.noAudio
       else ListenResult.transcribed (buf ++ decodedConcat dec (q.take k)))
  | 0, q, rest, buf, _ => by
      simp [listenLoop, decodedConcat]
  | k + 1, [], rest, buf, hk => by simp at hk
  | k + 1, none :: q, rest, buf, hk => by
      show listenLoop dec (List.replicate k Arm.frameArrives ++ Arm.timeout :: rest) q buf = _
      rw [listenLoop_run dec k q rest buf (by simp only [List.length_cons] at hk; omega)]
      simp [decodedConcat]
  | k + 1, some d :: q, rest, buf, hk => by
      have hk' : k ≤ q.length := by simp only [List.length_cons] at hk; omega
      show (match dec d with
            | none => listenLoop dec (List.replicate k Arm.frameArrives ++ Arm.timeout :: rest) q buf
            | some s => listenLoop dec (List.replicate k Arm.frameArrives ++ Arm.timeout :: rest) q (buf ++ s)) = _
      cases hdec : dec d with
      | none =>
          rw [listenLoop_run dec k q rest buf hk']
          simp [decodedConcat, hdec]
      | some s =>
          show listenLoop dec (List.replicate k Arm.frameArrives ++ Arm.timeout :: rest) q (buf ++ s) = _
          rw [listenLoop_run dec k q rest (buf ++ s) hk']
          simp [decodedConcat, hdec, List.append_assoc]

/-- Claim C7: when the capture window elapses while the accumulation buffer is
empty (no samples were decoded from the values taken off the channel),
`ListenToVoice` returns the distinguished no-audio outcome; that outcome never
reaches the transcription API (only `transcribed` does) and is distinct from
the cancellation result. -/
theorem C7_no_audio (dec : List Nat → Option (List Int)) (vc : VoiceConn)
    (k : Nat) (rest : List Arm)
    (hk : k ≤ vc.opusSend.length)
    (hempty : decodedConcat dec (vc.opusSend.take k) = []) :
    ListenToVoice dec vc (List.replicate k Arm.frameArrives ++ Arm.timeout :: rest) =
      ListenResult.noAudio ∧
    ListenResult.noAudio ≠ ListenResult.cancelled ∧
    ListenResult.noAudio ≠ ListenResult.transcribed [] := by
  refine ⟨?_, by decide, by decide⟩
  unfold ListenToVoice
  rw [listenLoop_run dec k vc.opusSend rest [] hk]
  simp [hempty]

/-- A decoder for concrete runs that rejects every frame. -/
def decRejecting : List Nat → Option (List Int) := fun _ => none

/-- Witness for C7: two undecodable frames are taken, then the window elapses:
the result is the no-audio outcome. -/
theorem C7_no_audio_witness :
    2 ≤ ([some [1], some [2]] : List (Option (List Nat))).length ∧
    decodedConcat decRejecting (([some [1], some [2]] : List (Option (List Nat))).take 2) = [] ∧
    (ListenToVoice decRejecting ⟨[some [1], some [2]], []⟩
        (List.replicate 2 Arm.frameArrives ++ Arm.timeout :: []) = ListenResult.noAudio ∧
      ListenResult.noAudio ≠ ListenResult.cancelled ∧
      ListenResult.noAudio ≠ ListenResult.transcribed []) :=
  ⟨by decide, rfl, C7_no_audio decRejecting ⟨[some [1], some [2]], []⟩ 2 [] (by decide) rfl⟩

/-- Claim C8: a frame whose Opus decode fails is skipped and the collection
loop continues to the window's end: running the loop over a queue containing a
failing frame gives exactly the run over the queue without it, and when the
window elapses the capture is not aborted — the result is built from the
accumulation buffer, which is the concatenation, in arrival order, of the
samples of exactly the successfully decoded frames (`decodedConcat`). -/
theorem C8_decode_failure_skipped (dec : List Nat → Option (List Int))
    (q1 q2 : List (Option (List Nat))) (d : List Nat) (rest : List Arm)
    (hd : dec d = none) :
    ListenToVoice dec ⟨q1 ++ some d :: q2, []⟩
        (List.replicate (q1 ++ some d :: q2).length Arm.frameArrives ++ Arm.timeout :: rest) =
      ListenToVoice dec ⟨q1 ++ q2, []⟩
        (List.replicate (q1 ++ q2).length Arm.frameArrives ++ Arm.timeout :: rest) ∧
    ListenToVoice dec ⟨q1 ++ q2, []⟩
        (List.replicate (q1 ++ q2).length Arm.frameArrives ++ Arm.timeout :: rest) =
      (if decodedConcat dec (q1 ++ q2) = [] then ListenResult.noAudio
       else ListenResult.transcribed (decodedConcat dec (q1 ++ q2))) := by
  have h2 : ListenToVoice dec ⟨q1 ++ q2, []⟩
      (List.replicate (q1 ++ q2).length Arm.frameArrives ++ Arm.timeout :: rest) =
      (if decodedConcat dec (q1 ++ q2) = [] then ListenResult.noAudio
       else ListenResult.transcribed (decodedConcat dec (q1 ++ q2))) := by
    unfold ListenToVoice
    rw [listenLoop_run dec (q1 ++ q2).length (q1 ++ q2) rest [] (le_refl _),
      List.take_length]
    simp
  refine ⟨?_, h2⟩
  rw [h2]
  unfold ListenToVoice
  rw [listenLoop_run dec (q1 ++ some d :: q2).length (q1 ++ some d :: q2) rest []
      (le_refl _), List.take_length]
  have hconcat : decodedConcat dec (q1 ++ some d :: q2) = decodedConcat dec (q1 ++ q2) := by
    unfold decodedConcat
    simp [hd]
  rw [hconcat]
  simp

/-- A decoder for concrete runs: frame `[9]` fails to decode, any other frame
decodes to the single sample 5. -/
def decFlaky : List Nat → Option (List Int) := fun d =>
  if d = [9] then none else some [5]

/-- Witness for C8: queue `[some [1], some [9], some [2]]` where `[9]` fails to
decode behaves like the queue without the bad frame, and yields the transcript
of the two good frames' samples. -/
theorem C8_decode_failure_skipped_witness :
    decFlaky [9] = none ∧
    ListenToVoice decFlaky ⟨[some [1]] ++ some [9] :: [some [2]], []⟩
        (List.replicate ([some [1]] ++ some [9] :: [some [2]] : List (Option (List Nat))).length
          Arm.frameArrives ++ Arm.timeout :: []) =
      ListenToVoice decFlaky ⟨[some [1]] ++ [some [2]], []⟩
        (List.replicate ([some [1]] ++ [some [2]] : List (Option (List Nat))).length
          Arm.frameArrives ++ Arm.timeout :: []) ∧
    ListenToVoice decFlaky ⟨[some [1]] ++ [some [2]], []⟩
        (List.replicate ([some [1]] ++ [some [2]] : List (Option (List Nat))).length
          Arm.frameArrives ++ Arm.timeout :: []) =
      (if decodedConcat decFlaky ([some [1]] ++ [some [2]]) = [] then ListenResult.noAudio
       else ListenResult.transcribed (decodedConcat decFlaky ([some [1]] ++ [some [2]]))) := by
  have h := C8_decode_failure_skipped decFlaky [some [1]] [some [2]] [9] [] (by decide)
  exact ⟨by decide, h.1, h.2⟩

/-- A `*discordgo.VoiceConnection` as seen by the registry: its `Ready` flag,
its `ChannelID`, and an identity used to tell handles apart. -/
structure Handle where
  ready : Bool
  channelID : String
  hid : Nat
deriving DecidableEq

/-- The `voiceConns map[string]*discordgo.VoiceConnection` lookup
`vc, exists := s.voiceConns[guildID]` (entries are never nil in the code:
only successfully opened connections are stored). -/
def lookupConn (m : List (String × Handle)) (g : String) : Option Handle :=
  (m.find? fun p => p.1 == g).map Prod.snd

/-- The map store `s.voiceConns[guildID] = vc`. -/
def setConn (m : List (String × Handle)) (g : String) (h : Handle) :
    List (String × Handle) :=
  (g, h) :: m.eraseP fun p => p.1 == g

/-- Side effects of `JoinVoiceChannel`, in program order:
`closeH` = `vc.Close()` on the old handle, `openH` = the
`session.ChannelVoiceJoin(guildID, channelID, false, false)` call,
`storeH` = `s.voiceConns[guildID] = vc`. -/
inductive VEv
  | closeH (hid : Nat)
  | openH (g c : String)
  | storeH (g : String) (hid : Nat)
deriving DecidableEq

/-- Embedding of `JoinVoiceChannel` (the body runs entirely under `voiceMu`):
if a stored handle exists, is non-nil and `Ready`, it is returned unchanged
when it targets the requested channel, and `Close()`d first otherwise; then
`ChannelVoiceJoin` is called (`openResult` models its return: `none` = error,
in which case the map is left unchanged and the error is returned) and the new
handle is stored under the guild key.  Returns (result, new map, event list). -/
def JoinVoiceChannel (m : List (String × Handle)) (g c : String)
    (openResult : Option Handle) :
    Option Handle × List (String × Handle) × List VEv :=
  match lookupConn m g with
  | some vc =>
      if vc.ready then
        if vc.channelID = c then (some vc, m, [])
        else
          match openResult with
          | none => (none, m, [VEv.closeH vc.hid, VEv.openH g c])
          | some h =>
              (some h, setConn m g h, [VEv.closeH vc.hid, VEv.openH g c, VEv.storeH g h.hid])
      else
        match openResult with
        | none => (none, m, [VEv.openH g c])
        | some h => (some h, setConn m g h, [VEv.openH g c, VEv.storeH g h.hid])
  | none =>
      match openResult with
      | none => (none, m, [VEv.openH g c])
      | some h => (some h, setConn m g h, [VEv.openH g c, VEv.storeH g h.hid])

theorem lookupConn_setConn (m : List (String × Handle)) (g : String) (h : Handle) :
    lookupConn (setConn m g h) g = some h := by
  unfold lookupConn setConn
  rw [List.find?_cons_of_pos _ (by simp)]
  rfl

/-- Claim C4: the three cases of `JoinVoiceChannel`.  A ready handle for the
requested channel is returned unchanged with no open and no close; a ready
handle for a different channel is closed before the replacement is opened and
stored (event order `closeH`, `openH`, `storeH`); with no handle for the guild
a new one is opened and stored under the guild key. -/
theorem C4_join_cases (m : List (String × Handle)) (g c : String)
    (vc h : Handle) (o : Option Handle) :
    (lookupConn m g = some vc → vc.ready = true → vc.channelID = c →
      JoinVoiceChannel m g c o = (some vc, m, [])) ∧
    (lookupConn m g = some vc → vc.ready = true → vc.channelID ≠ c →
      JoinVoiceChannel m g c (some h) =
        (some h, setConn m g h, [VEv.closeH vc.hid, VEv.openH g c, VEv.storeH g h.hid])) ∧
    (lookupConn m g = none →
      JoinVoiceChannel m g c (some h) =
        (some h, setConn m g h, [VEv.openH g c, VEv.storeH g h.hid])) ∧
    lookupConn (setConn m g h) g = some h := by
  refine ⟨?_, ?_, ?_, lookupConn_setConn m g h⟩
  · intro h1 h2 h3
    unfold JoinVoiceChannel
    rw [h1]
    simp [h2, h3]
  · intro h1 h2 h3
    unfold JoinVoiceChannel
    rw [h1]
    simp [h2, h3]
  · intro h1
    unfold JoinVoiceChannel
    rw [h1]

/-- Concrete handles for witnesses. -/
def hReadyA : Handle := ⟨true, "chanA", 1⟩

/-- A second concrete handle targeting another channel. -/
def hReadyB : Handle := ⟨true, "chanB", 2⟩

/-- Witness for C4: the three cases of the theorem applied to concrete
registries: an existing ready handle for "chanA" is returned untouched; a join
to "chanB" closes handle 1, opens and stores handle 2; a join on an empty
registry opens and stores handle 2. -/
theorem C4_join_cases_witness :
    JoinVoiceChannel [("g", hReadyA)] "g" "chanA" none = (some hReadyA, [("g", hReadyA)], []) ∧
    JoinVoiceChannel [("g", hReadyA)] "g" "chanB" (some hReadyB) =
      (some hReadyB, setConn [("g", hReadyA)] "g" hReadyB,
        [VEv.closeH hReadyA.hid, VEv.openH "g" "chanB", VEv.storeH "g" hReadyB.hid]) ∧
    JoinVoiceChannel [] "g" "chanB" (some hReadyB) =
      (some hReadyB, setConn [] "g" hReadyB,
        [VEv.openH "g" "chanB", VEv.storeH "g" hReadyB.hid]) ∧
    lookupConn (setConn [("g", hReadyA)] "g" hReadyB) "g" = some hReadyB :=
  ⟨(C4_join_cases [("g", hReadyA)] "g" "chanA" hReadyA hReadyB none).1 rfl rfl rfl,
   (C4_join_cases [("g", hReadyA)] "g" "chanB" hReadyA hReadyB none).2.1 rfl rfl (by decide),
   (C4_join_cases [] "g" "chanB" hReadyA hReadyB none).2.2.1 rfl,
   (C4_join_cases [("g", hReadyA)] "g" "chanB" hReadyA hReadyB none).2.2.2⟩

theorem JoinVoiceChannel_same (m : List (String × Handle)) (g c : String)
    (o : Option Handle) (vc : Handle) (h1 : lookupConn m g = some vc)
    (h2 : vc.ready = true) (h3 : vc.channelID = c) :
    JoinVoiceChannel m g c o = (some vc, m, []) := by
  unfold JoinVoiceChannel
  rw [h1]
  simp [h2, h3]

theorem JoinVoiceChannel_fresh (m : List (String × Handle)) (g c : String)
    (h : Handle) (h1 : lookupConn m g = none) :
    JoinVoiceChannel m g c (some h) =
      (some h, setConn m g h, [VEv.openH g c, VEv.storeH g h.hid]) := by
  unfold JoinVoiceChannel
  rw [h1]

/-- Sequence of `n` Join calls for the same guild and channel.  `JoinVoiceChannel` holds
`s.voiceMu` for its whole body, so any interleaving of n concurrent callers is
some serialization of the n bodies; with all callers requesting the same guild
and channel every serialization is this sequence.  `supply i` models what the
i-th actually-performed `ChannelVoiceJoin` would return
(`discordgo.ChannelVoiceJoin` only returns once the connection is ready). -/
def joinSeq : Nat → List (String × Handle) → String → String → (Nat → Handle) →
    List (Option Handle) × List (String × Handle) × List VEv
  | 0, m, _, _, _ => ([], m, [])
  | n + 1, m, g, c, supply =>
      ((JoinVoiceChannel m g c (some (supply 0))).1 ::
          (joinSeq n (JoinVoiceChannel m g c (some (supply 0))).2.1 g c
            (fun i => supply (i + 1))).1,
        (joinSeq n (JoinVoiceChannel m g c (some (supply 0))).2.1 g c
          (fun i => supply (i + 1))).2.1,
        (JoinVoiceChannel m g c (some (supply 0))).2.2 ++
          (joinSeq n (JoinVoiceChannel m g c (some (supply 0))).2.1 g c
            (fun i => supply (i + 1))).2.2)

theorem joinSeq_steady : ∀ (k : Nat) (m : List (String × Handle)) (g c : String)
    (supply : Nat → Handle) (vc : Handle),
    lookupConn m g = some vc → vc.ready = true → vc.channelID = c →
    joinSeq k m g c supply = (List.replicate k (some vc), m, [])
  | 0, _, _, _, _, _, _, _, _ => rfl
  | k + 1, m, g, c, supply, vc, h1, h2, h3 => by
      simp only [joinSeq]
      rw [JoinVoiceChannel_same m g c (some (supply 0)) vc h1 h2 h3]
      rw [joinSeq_steady k m g c (fun i => supply (i + 1)) vc h1 h2 h3]
      rfl

theorem countP_guild_eq_zero (m : List (String × Handle)) (g : String)
    (h : lookupConn m g = none) : (m.countP fun p => p.1 == g) = 0 := by
  unfold lookupConn at h
  rw [Option.map_eq_none'] at h
  rw [List.countP_eq_zero]
  intro a ha
  exact List.find?_eq_none.mp h a ha

/-- Claim C9: starting from a registry with no handle for the guild, N ≥ 1
serialized Join calls (the mutex makes every interleaving a serialization) for
the same guild and channel perform exactly one `ChannelVoiceJoin` open call and
no close, every caller receives the same handle (the one the single open
returned), that handle is stored under the guild key, and after any number of
such calls the registry never holds more than one entry for the guild.
Hypotheses `hready`/`hchan` model that `ChannelVoiceJoin` returns a ready
connection targeting the requested channel. -/
theorem C9_concurrent_joins (n : Nat) (m : List (String × Handle)) (g c : String)
    (supply : Nat → Handle) (hn : 1 ≤ n) (hnone : lookupConn m g = none)
    (hready : (supply 0).ready = true) (hchan : (supply 0).channelID = c) :
    (joinSeq n m g c supply).1 = List.replicate n (some (supply 0)) ∧
    ((joinSeq n m g c supply).2.2.countP fun e => match e with
        | VEv.openH _ _ => true
        | _ => false) = 1 ∧
    ((joinSeq n m g c supply).2.2.countP fun e => match e with
        | VEv.closeH _ => true
        | _ => false) = 0 ∧
    lookupConn (joinSeq n m g c supply).2.1 g = some (supply 0) ∧
    (∀ j : Nat, ((joinSeq j m g c supply).2.1.countP fun p => p.1 == g) ≤ 1) := by
  have hstep : ∀ (k : Nat),
      joinSeq (k + 1) m g c supply =
        (some (supply 0) :: List.replicate k (some (supply 0)),
          setConn m g (supply 0),
          [VEv.openH g c, VEv.storeH g (supply 0).hid] ++ []) := by
    intro k
    simp only [joinSeq]
    rw [JoinVoiceChannel_fresh m g c (supply 0) hnone]
    rw [joinSeq_steady k (setConn m g (supply 0)) g c (fun i => supply (i + 1)) (supply 0)
        (lookupConn_setConn m g (supply 0)) hready hchan]
  obtain ⟨k, rfl⟩ : ∃ k, n = k + 1 := ⟨n - 1, by omega⟩
  rw [hstep k]
  refine ⟨rfl, rfl, rfl, lookupConn_setConn m g (supply 0), ?_⟩
  intro j
  cases j with
  | zero =>
      show (m.countP fun p => p.1 == g) ≤ 1
      rw [countP_guild_eq_zero m g hnone]
      omega
  | succ j' =>
      rw [hstep j']
      show ((setConn m g (supply 0)).countP fun p => p.1 == g) ≤ 1
      unfold setConn
      rw [List.countP_cons]
      have hsub : ((m.eraseP fun p => p.1 == g).countP fun p => p.1 == g) ≤
          (m.countP fun p => p.1 == g) :=
        (List.eraseP_sublist m).countP_le _
      rw [countP_guild_eq_zero m g hnone] at hsub
      simp only [beq_self_eq_true, if_pos]
      omega

/-- A supply of ready handles for channel "chanA" for the C9 witness. -/
def supplyA : Nat → Handle := fun i => ⟨true, "chanA", i⟩

/-- Witness for C9: two Join calls on an empty registry for guild "g" and
channel "chanA": both receive handle `supplyA 0`, one open event, no close,
and the per-guild entry count stays at most one (checked after one call). -/
theorem C9_concurrent_joins_witness :
    1 ≤ 2 ∧
    lookupConn [] "g" = none ∧
    ((joinSeq 2 [] "g" "chanA" supplyA).1 = List.replicate 2 (some (supplyA 0)) ∧
      ((joinSeq 2 [] "g" "chanA" supplyA).2.2.countP fun e => match e with
          | VEv.openH _ _ => true
          | _ => false) = 1 ∧
      ((joinSeq 2 [] "g" "chanA" supplyA).2.2.countP fun e => match e with
          | VEv.closeH _ => true
          | _ => false) = 0 ∧
      lookupConn (joinSeq 2 [] "g" "chanA" supplyA).2.1 "g" = some (supplyA 0) ∧
      ((joinSeq 1 [] "g" "chanA" supplyA).2.1.countP fun p => p.1 == "g") ≤ 1) := by
  have h := C9_concurrent_joins 2 [] "g" "chanA" supplyA (by decide) rfl rfl rfl
  exact ⟨by decide, rfl, h.1, h.2.1, h.2.2.1, h.2.2.2.1, h.2.2.2.2 1⟩

end Voice
